import Mathlib

/-!
Verification of the PlugData "Deken" package-manager subsystem
(Source/Dialogs/Deken.h) against its natural-language specification.

Strings of the C++ source (juce::String) are modelled as lists of natural
numbers: the code points / bytes of the string.  All string operations used
by the package manager (upToFirstOccurrenceOf, fromFirstOccurrenceOf,
fromLastOccurrenceOf, upToLastOccurrenceOf, replaceFirstOccurrenceOf,
compare) are embedded below with the exact not-found behaviour of the JUCE
implementations.
-/

/-- Model of juce::String: the sequence of code points / bytes. -/
abbrev Str := List Nat

/-- Position of the first occurrence of `needle` as a contiguous substring of
`s`, mirroring juce String::indexOf (`none` when absent). -/
def strFind (needle : Str) : Str → Option Nat
  | [] => if needle = [] then some 0 else none
  | c :: rest =>
    if needle.isPrefixOf (c :: rest) then some 0
    else (strFind needle rest).map (· + 1)

/-- Position of the last occurrence of `needle` in `s`, mirroring
juce String::lastIndexOf (`none` when absent). -/
def strFindLast (needle : Str) : Str → Option Nat
  | [] => if needle = [] then some 0 else none
  | c :: rest =>
    match strFindLast needle rest with
    | some i => some (i + 1)
    | none => if needle.isPrefixOf (c :: rest) then some 0 else none

/-- juce String::upToFirstOccurrenceOf(sub, false, false):
the part before the first occurrence; the whole string when absent. -/
def upToFirstOccurrenceOf (s needle : Str) : Str :=
  match strFind needle s with
  | none => s
  | some i => s.take i

/-- juce String::fromFirstOccurrenceOf(sub, false, false):
the part after the first occurrence; the EMPTY string when absent. -/
def fromFirstOccurrenceOf (s needle : Str) : Str :=
  match strFind needle s with
  | none => []
  | some i => s.drop (i + needle.length)

/-- juce String::fromLastOccurrenceOf(sub, false, false):
the part after the last occurrence; the WHOLE string when absent. -/
def fromLastOccurrenceOf (s needle : Str) : Str :=
  match strFindLast needle s with
  | none => s
  | some i => s.drop (i + needle.length)

/-- juce String::upToLastOccurrenceOf(sub, false, false):
the part before the last occurrence; the whole string when absent. -/
def upToLastOccurrenceOf (s needle : Str) : Str :=
  match strFindLast needle s with
  | none => s
  | some i => s.take i

/-- juce String::replaceFirstOccurrenceOf(sub, repl). -/
def replaceFirstOccurrenceOf (s needle repl : Str) : Str :=
  match strFind needle s with
  | none => s
  | some i => s.take i ++ repl ++ s.drop (i + needle.length)

/-- The hyphen separator used by deken platform tags. -/
def hyphen : Str := [45]

/-- PackageManager::checkArchitecture, parameterized by the compiled-in
values `os` (PackageManager::os), `fs` (PackageManager::floatsize) and
`machine` (PackageManager::machine).  Mirrors the source line by line:
strip the leading OS segment and compare with `os`; strip the trailing
float-size segment and compare with `floatsize`; test membership of the
remaining middle part in `machine`. -/
def checkArchitecture (os fs : Str) (machine : List Str) (platform : Str) : Bool :=
  if upToFirstOccurrenceOf platform hyphen ≠ os then false
  else if fromLastOccurrenceOf (fromFirstOccurrenceOf platform hyphen) hyphen ≠ fs
    then false
  else machine.contains
    (upToLastOccurrenceOf (fromFirstOccurrenceOf platform hyphen) hyphen)

/-- The platform tag "Linux-amd64-32". -/
def strLinuxAmd6432 : Str :=
  [76, 105, 110, 117, 120, 45, 97, 109, 100, 54, 52, 45, 51, 50]

/-- The string "Linux". -/
def strLinux : Str := [76, 105, 110, 117, 120]

/-- The string "amd64". -/
def strAmd64 : Str := [97, 109, 100, 54, 52]

/-- The string "x86_64". -/
def strX8664 : Str := [120, 56, 54, 95, 54, 52]

/-- The string "32". -/
def str32 : Str := [51, 50]

/-- The string "64". -/
def str64 : Str := [54, 52]

/-- The string "Windows". -/
def strWindows : Str := [87, 105, 110, 100, 111, 119, 115]

theorem strFind_single_none {c : Nat} {s : Str} (h : c ∉ s) :
    strFind [c] s = none := by
  induction s with
  | nil => rfl
  | cons x rest ih =>
    simp only [strFind]
    have hxc : x ≠ c := by
      intro hx; exact h (by simp [hx])
    have : ¬ ([c].isPrefixOf (x :: rest)) := by
      simp [List.isPrefixOf, hxc.symm]
    rw [if_neg this, ih (fun hm => h (List.mem_cons_of_mem _ hm))]
    rfl

theorem strFind_single_append {c : Nat} {o : Str} (rest : Str) (h : c ∉ o) :
    strFind [c] (o ++ c :: rest) = some o.length := by
  induction o with
  | nil =>
    simp [strFind, List.isPrefixOf]
  | cons x xs ih =>
    have hxc : x ≠ c := by
      intro hx; exact h (by simp [hx])
    simp only [List.cons_append, strFind, List.append_eq]
    have : ¬ ([c].isPrefixOf (x :: (xs ++ c :: rest))) := by
      simp [List.isPrefixOf, hxc.symm]
    rw [if_neg this, ih (fun hm => h (List.mem_cons_of_mem _ hm))]
    simp

theorem strFindLast_single_none {c : Nat} {s : Str} (h : c ∉ s) :
    strFindLast [c] s = none := by
  induction s with
  | nil => rfl
  | cons x rest ih =>
    have hxc : x ≠ c := by
      intro hx; exact h (by simp [hx])
    simp only [strFindLast]
    rw [ih (fun hm => h (List.mem_cons_of_mem _ hm))]
    have : ¬ ([c].isPrefixOf (x :: rest)) := by
      simp [List.isPrefixOf, hxc.symm]
    simp [this]

theorem strFindLast_single_append {c : Nat} (a : Str) {f : Str} (h : c ∉ f) :
    strFindLast [c] (a ++ c :: f) = some a.length := by
  induction a with
  | nil =>
    simp only [List.nil_append, strFindLast]
    rw [strFindLast_single_none h]
    simp [List.isPrefixOf]
  | cons x xs ih =>
    simp only [List.cons_append, strFindLast, List.append_eq]
    rw [ih]
    simp

theorem upToFirst_of_no_sep {c : Nat} {s : Str} (h : c ∉ s) :
    upToFirstOccurrenceOf s [c] = s := by
  simp [upToFirstOccurrenceOf, strFind_single_none h]

theorem fromFirst_of_no_sep {c : Nat} {s : Str} (h : c ∉ s) :
    fromFirstOccurrenceOf s [c] = [] := by
  simp [fromFirstOccurrenceOf, strFind_single_none h]

theorem upToFirst_append {c : Nat} {o : Str} (rest : Str) (h : c ∉ o) :
    upToFirstOccurrenceOf (o ++ c :: rest) [c] = o := by
  simp [upToFirstOccurrenceOf, strFind_single_append rest h,
    List.take_left']

theorem fromFirst_append {c : Nat} {o : Str} (rest : Str) (h : c ∉ o) :
    fromFirstOccurrenceOf (o ++ c :: rest) [c] = rest := by
  simp [fromFirstOccurrenceOf, strFind_single_append rest h,
    List.drop_left']

theorem fromLast_append {c : Nat} (a : Str) {f : Str} (h : c ∉ f) :
    fromLastOccurrenceOf (a ++ c :: f) [c] = f := by
  simp [fromLastOccurrenceOf, strFindLast_single_append a h,
    List.drop_left']

theorem upToLast_append {c : Nat} (a : Str) {f : Str} (h : c ∉ f) :
    upToLastOccurrenceOf (a ++ c :: f) [c] = a := by
  simp [upToLastOccurrenceOf, strFindLast_single_append a h,
    List.take_left']

/-- Claim C6: checkArchitecture("Linux-amd64-32") is true exactly when the
compiled-in OS is "Linux", the compiled-in float size is "32" and the
compiled-in machine alias set contains "amd64"; and for every three-segment
platform tag `o-a-f` (segments hyphen-free), making any one of the three
segments non-matching forces the predicate to false. -/
theorem checkArchitecture_three_segment_spec (os fs : Str) (machine : List Str)
    (o a f : Str) (ho : 45 ∉ o) (ha : 45 ∉ a) (hf : 45 ∉ f)
    (hbad : o ≠ os ∨ a ∉ machine ∨ f ≠ fs) :
    (checkArchitecture os fs machine strLinuxAmd6432 = true ↔
      (os = strLinux ∧ fs = str32 ∧ strAmd64 ∈ machine))
    ∧ checkArchitecture os fs machine (o ++ 45 :: (a ++ 45 :: f)) = false := by
  constructor
  · unfold checkArchitecture
    simp only [hyphen]
    have h1 : upToFirstOccurrenceOf strLinuxAmd6432 [45] = strLinux := by decide
    have h2 : fromFirstOccurrenceOf strLinuxAmd6432 [45] =
        strAmd64 ++ 45 :: str32 := by decide
    have h3 : fromLastOccurrenceOf (strAmd64 ++ 45 :: str32) [45] = str32 := by
      decide
    have h4 : upToLastOccurrenceOf (strAmd64 ++ 45 :: str32) [45] = strAmd64 := by
      decide
    rw [h1, h2, h3, h4]
    by_cases hos : strLinux = os
    · by_cases hfs : str32 = fs
      · subst hos; subst hfs
        simp [List.contains]
      · rw [if_neg (not_not_intro hos), if_pos hfs]
        simp only [Bool.false_eq_true, false_iff]
        rintro ⟨-, h2', -⟩
        exact hfs h2'.symm
    · rw [if_pos hos]
      simp only [Bool.false_eq_true, false_iff]
      rintro ⟨h1', -, -⟩
      exact hos h1'.symm
  · unfold checkArchitecture
    simp only [hyphen]
    rw [upToFirst_append _ ho, fromFirst_append _ ho, fromLast_append _ hf,
      upToLast_append _ hf]
    by_cases hos : o = os
    · by_cases hfs : f = fs
      · rw [if_neg (not_not_intro hos), if_neg (not_not_intro hfs)]
        rcases hbad with h | h | h
        · exact absurd hos h
        · simp [List.contains, h]
        · exact absurd hfs h
      · rw [if_neg (not_not_intro hos), if_pos hfs]
    · rw [if_pos hos]

/-- Witness for C6: on a Linux/amd64/pd-single build, "Linux-amd64-32"
matches, and flipping the OS segment to "Windows" makes the predicate
false. -/
theorem checkArchitecture_three_segment_spec_witness :
    (checkArchitecture strLinux str32 [strAmd64, strX8664] strLinuxAmd6432 = true ↔
      (strLinux = strLinux ∧ str32 = str32 ∧ strAmd64 ∈ [strAmd64, strX8664]))
    ∧ checkArchitecture strLinux str32 [strAmd64, strX8664]
        (strWindows ++ 45 :: (strAmd64 ++ 45 :: str32)) = false :=
  checkArchitecture_three_segment_spec strLinux str32 [strAmd64, strX8664]
    strWindows strAmd64 str32 (by decide) (by decide) (by decide)
    (Or.inl (by decide))

/-- Claim C10: a platform tag with no hyphen never matches (when the
compiled-in float size string is non-empty), even when it equals the
compiled-in OS name: after stripping the OS segment the remainder is the
empty string, and the float-size comparison is made against that empty
remainder. -/
theorem checkArchitecture_bare_tag_false (os fs : Str) (machine : List Str)
    (p : Str) (hp : 45 ∉ p) (hfs : fs ≠ []) :
    checkArchitecture os fs machine p = false
    ∧ fromFirstOccurrenceOf p hyphen = [] := by
  have hfrom : fromFirstOccurrenceOf p hyphen = [] := fromFirst_of_no_sep hp
  refine ⟨?_, hfrom⟩
  unfold checkArchitecture
  simp only [hyphen] at hfrom ⊢
  rw [upToFirst_of_no_sep hp, hfrom]
  by_cases hos : p = os
  · rw [if_neg (not_not_intro hos)]
    have hlast : fromLastOccurrenceOf ([] : Str) [45] = [] := rfl
    rw [hlast, if_pos (fun h => hfs h.symm)]
  · rw [if_pos hos]

/-- Witness for C10: on a Linux build with float size "32", the bare tag
"Linux" does not match even though it equals the compiled-in OS name. -/
theorem checkArchitecture_bare_tag_false_witness :
    checkArchitecture strLinux str32 [strAmd64, strX8664] strLinux = false
    ∧ fromFirstOccurrenceOf strLinux hyphen = [] :=
  checkArchitecture_bare_tag_false strLinux str32 [strAmd64, strX8664]
    strLinux (by decide) (by decide)

/-!
Base64 and the derived package identifier.

PackageInfo's constructor computes
`packageId = Base64::toBase64(name + "_" + version + "_" + timestamp + "_" + author)`
and operator== compares two records by that identifier alone.  juce
Base64::toBase64 is standard RFC 4648 base64 with '=' padding over the
string's bytes; it is embedded executably below together with a decoder
used to prove it injective on byte strings.
-/

/-- The RFC 4648 base64 alphabet as byte values
(A-Z, a-z, 0-9, plus, slash). -/
def b64Alphabet : Str :=
  [65, 66, 67, 68, 69, 70, 71, 72, 73, 74, 75, 76, 77, 78, 79, 80, 81, 82,
   83, 84, 85, 86, 87, 88, 89, 90,
   97, 98, 99, 100, 101, 102, 103, 104, 105, 106, 107, 108, 109, 110, 111,
   112, 113, 114, 115, 116, 117, 118, 119, 120, 121, 122,
   48, 49, 50, 51, 52, 53, 54, 55, 56, 57, 43, 47]

/-- Base64 digit character for a 6-bit value. -/
def b64c (n : Nat) : Nat := b64Alphabet.getD n 0

/-- Index of a character in the base64 alphabet (length of the alphabet when
absent). -/
def b64idx (c : Nat) : Nat := b64Alphabet.indexOf c

/-- juce Base64::toBase64 on a byte string: groups of three bytes become four
alphabet characters; a trailing group of one or two bytes is padded with
'=' (61). -/
def base64Encode : Str → Str
  | [] => []
  | [a] => [b64c (a / 4), b64c (a % 4 * 16), 61, 61]
  | [a, b] => [b64c (a / 4), b64c (a % 4 * 16 + b / 16), b64c (b % 16 * 4), 61]
  | a :: b :: c :: rest =>
    b64c (a / 4) :: b64c (a % 4 * 16 + b / 16) :: b64c (b % 16 * 4 + c / 64)
      :: b64c (c % 64) :: base64Encode rest

/-- Decoder for one four-character base64 group, honouring '=' padding. -/
def decode4 (s0 s1 s2 s3 : Nat) : Str :=
  if s2 = 61 then [b64idx s0 * 4 + b64idx s1 / 16]
  else if s3 = 61 then
    [b64idx s0 * 4 + b64idx s1 / 16, b64idx s1 % 16 * 16 + b64idx s2 / 4]
  else
    [b64idx s0 * 4 + b64idx s1 / 16, b64idx s1 % 16 * 16 + b64idx s2 / 4,
     b64idx s2 % 4 * 64 + b64idx s3]

/-- Base64 decoder, the left inverse of `base64Encode` used to prove the
encoder injective. -/
def base64Decode : Str → Str
  | s0 :: s1 :: s2 :: s3 :: rest => decode4 s0 s1 s2 s3 ++ base64Decode rest
  | _ => []

theorem b64idx_b64c : ∀ n, n < 64 → b64idx (b64c n) = n := by decide

theorem b64c_ne_pad : ∀ n, n < 64 → b64c n ≠ 61 := by decide

theorem base64_roundtrip : ∀ l : Str, (∀ b ∈ l, b < 256) →
    base64Decode (base64Encode l) = l
  | [], _ => rfl
  | [a], h => by
    have ha : a < 256 := h a (by simp)
    have e1 : b64idx (b64c (a / 4)) = a / 4 := b64idx_b64c _ (by omega)
    have e2 : b64idx (b64c (a % 4 * 16)) = a % 4 * 16 := b64idx_b64c _ (by omega)
    show decode4 (b64c (a / 4)) (b64c (a % 4 * 16)) 61 61 ++ base64Decode [] = [a]
    unfold decode4
    rw [if_pos rfl, e1, e2]
    simp only [base64Decode, List.append_nil, List.cons.injEq, and_true]
    omega
  | [a, b], h => by
    have ha : a < 256 := h a (by simp)
    have hb : b < 256 := h b (by simp)
    have e1 : b64idx (b64c (a / 4)) = a / 4 := b64idx_b64c _ (by omega)
    have e2 : b64idx (b64c (a % 4 * 16 + b / 16)) = a % 4 * 16 + b / 16 :=
      b64idx_b64c _ (by omega)
    have e3 : b64idx (b64c (b % 16 * 4)) = b % 16 * 4 := b64idx_b64c _ (by omega)
    have n2 : b64c (b % 16 * 4) ≠ 61 := b64c_ne_pad _ (by omega)
    show decode4 (b64c (a / 4)) (b64c (a % 4 * 16 + b / 16)) (b64c (b % 16 * 4)) 61
        ++ base64Decode [] = [a, b]
    unfold decode4
    rw [if_neg n2, if_pos rfl, e1, e2, e3]
    simp only [base64Decode, List.append_nil, List.cons.injEq, and_true]
    omega
  | a :: b :: c :: rest, h => by
    have ha : a < 256 := h a (by simp)
    have hb : b < 256 := h b (by simp)
    have hc : c < 256 := h c (by simp)
    have ih := base64_roundtrip rest (fun x hx => h x (by simp [hx]))
    have e1 : b64idx (b64c (a / 4)) = a / 4 := b64idx_b64c _ (by omega)
    have e2 : b64idx (b64c (a % 4 * 16 + b / 16)) = a % 4 * 16 + b / 16 :=
      b64idx_b64c _ (by omega)
    have e3 : b64idx (b64c (b % 16 * 4 + c / 64)) = b % 16 * 4 + c / 64 :=
      b64idx_b64c _ (by omega)
    have e4 : b64idx (b64c (c % 64)) = c % 64 := b64idx_b64c _ (by omega)
    have n2 : b64c (b % 16 * 4 + c / 64) ≠ 61 := b64c_ne_pad _ (by omega)
    have n3 : b64c (c % 64) ≠ 61 := b64c_ne_pad _ (by omega)
    show decode4 (b64c (a / 4)) (b64c (a % 4 * 16 + b / 16))
        (b64c (b % 16 * 4 + c / 64)) (b64c (c % 64))
        ++ base64Decode (base64Encode rest) = a :: b :: c :: rest
    unfold decode4
    rw [if_neg n2, if_neg n3, e1, e2, e3, e4, ih]
    simp only [List.cons_append, List.nil_append, List.cons.injEq, and_true]
    omega

theorem base64Encode_inj {l1 l2 : Str} (h1 : ∀ b ∈ l1, b < 256)
    (h2 : ∀ b ∈ l2, b < 256) (he : base64Encode l1 = base64Encode l2) :
    l1 = l2 := by
  have hr := base64_roundtrip l1 h1
  rw [he, base64_roundtrip l2 h2] at hr
  exact hr.symm

/-- Model of struct PackageInfo: the data passed to its constructor.  The
derived `packageId` field is modelled by the function `packageId` below. -/
structure PackageInfo where
  name : Str
  author : Str
  timestamp : Str
  url : Str
  description : Str
  version : Str
  objects : List Str
  deriving DecidableEq

/-- The string the PackageInfo constructor feeds to Base64::toBase64:
name + "_" + version + "_" + timestamp + "_" + author
(95 is the underscore byte). -/
def joinedKey (m : PackageInfo) : Str :=
  m.name ++ 95 :: (m.version ++ 95 :: (m.timestamp ++ 95 :: m.author))

/-- The derived identifier computed by the PackageInfo constructor:
packageId = Base64::toBase64(name + "_" + version + "_" + timestamp + "_" + author). -/
def packageId (m : PackageInfo) : Str := base64Encode (joinedKey m)

/-- operator==(PackageInfo, PackageInfo): "fast compare by ID". -/
def packageInfoEq (m1 m2 : PackageInfo) : Bool := packageId m1 == packageId m2

/-- Metadata whose name is "a_b" and version is "c". -/
def cexInfoA : PackageInfo :=
  { name := [97, 95, 98], author := [117], timestamp := [116], url := [],
    description := [], version := [99], objects := [] }

/-- Metadata whose name is "a" and version is "b_c": same joined key, hence
the same derived identifier as `cexInfoA`, although the tuples differ. -/
def cexInfoB : PackageInfo :=
  { name := [97], author := [117], timestamp := [116], url := [],
    description := [], version := [98, 95, 99], objects := [] }

/-- Counterexample for claim C2: the records ("a_b", version "c") and
("a", version "b_c") have equal derived identifiers and compare equal under
operator==, yet their (name, version, timestamp, author) tuples are not
component-wise equal — the underscore-joined key is ambiguous when fields
contain underscores. -/
theorem packageId_collision_distinct_tuples :
    packageId cexInfoA = packageId cexInfoB
    ∧ packageInfoEq cexInfoA cexInfoB = true
    ∧ ¬(cexInfoA.name = cexInfoB.name ∧ cexInfoA.version = cexInfoB.version
        ∧ cexInfoA.timestamp = cexInfoB.timestamp
        ∧ cexInfoA.author = cexInfoB.author) := by
  refine ⟨rfl, rfl, ?_⟩
  rintro ⟨hn, -⟩
  exact absurd hn (by decide)

/-- Claim C2 (amended): two identifiers agree exactly when the
underscore-joined strings name + "_" + version + "_" + timestamp + "_" +
author agree (and operator== holds exactly then); component-wise tuple
equality is sufficient for identifier equality but not necessary when the
fields themselves contain underscores.  The byte-range hypotheses say the
fields are genuine byte strings. -/
theorem packageId_eq_iff_joined_eq (m1 m2 : PackageInfo)
    (h1 : ∀ b ∈ joinedKey m1, b < 256) (h2 : ∀ b ∈ joinedKey m2, b < 256) :
    (packageId m1 = packageId m2 ↔ joinedKey m1 = joinedKey m2)
    ∧ (packageInfoEq m1 m2 = true ↔ joinedKey m1 = joinedKey m2)
    ∧ ((m1.name = m2.name ∧ m1.version = m2.version
        ∧ m1.timestamp = m2.timestamp ∧ m1.author = m2.author) →
        packageId m1 = packageId m2) := by
  have key : packageId m1 = packageId m2 ↔ joinedKey m1 = joinedKey m2 := by
    constructor
    · intro h
      exact base64Encode_inj h1 h2 h
    · intro h
      unfold packageId
      rw [h]
  refine ⟨key, ?_, ?_⟩
  · unfold packageInfoEq
    rw [beq_iff_eq]
    exact key
  · rintro ⟨hn, hv, ht, ha⟩
    unfold packageId joinedKey
    rw [hn, hv, ht, ha]

/-- Witness for the amended C2 at the two concrete colliding records. -/
theorem packageId_eq_iff_joined_eq_witness :
    (packageId cexInfoA = packageId cexInfoB ↔
      joinedKey cexInfoA = joinedKey cexInfoB)
    ∧ (packageInfoEq cexInfoA cexInfoB = true ↔
      joinedKey cexInfoA = joinedKey cexInfoB)
    ∧ ((cexInfoA.name = cexInfoB.name ∧ cexInfoA.version = cexInfoB.version
        ∧ cexInfoA.timestamp = cexInfoB.timestamp
        ∧ cexInfoA.author = cexInfoB.author) →
        packageId cexInfoA = packageId cexInfoB) :=
  packageId_eq_iff_joined_eq cexInfoA cexInfoB (by decide) (by decide)

/-!
The registry of installed packages.

PackageManager::packageState is a ValueTree with root tag "pkg_info"; each
child is one installed package, carrying the properties ID, Author,
Timestamp, Description, Version, Path and URL.  It is modelled as the list
of its children.  ValueTree::getChildWithProperty("ID", pid) returns the
first child whose ID property is pid; PackageManager::addPackageToRegister
removes that child when present and then appends a fresh entry.
-/

/-- One child of the pkg_info tree: the package entry written by
addPackageToRegister. -/
structure RegistryEntry where
  typeName : Str
  id : Str
  author : Str
  timestamp : Str
  description : Str
  version : Str
  path : Str
  url : Str
  deriving DecidableEq

/-- The package registry: the ordered children of the pkg_info ValueTree. -/
abbrev Registry := List RegistryEntry

/-- The ValueTree child built inside addPackageToRegister from a package's
metadata and its extracted install path. -/
def mkEntry (info : PackageInfo) (path : Str) : RegistryEntry :=
  { typeName := info.name, id := packageId info, author := info.author,
    timestamp := info.timestamp, description := info.description,
    version := info.version, path := path, url := info.url }

/-- ValueTree::getChildWithProperty("ID", pid): the first child whose ID
property equals pid (an invalid tree, modelled as `none`, when absent). -/
def getChildWithId (s : Registry) (pid : Str) : Option RegistryEntry :=
  s.find? (fun e => e.id == pid)

/-- ValueTree::removeChild applied to the child returned by
getChildWithProperty("ID", pid): drops the first entry with that ID. -/
def removeFirstWithId (pid : Str) : Registry → Registry
  | [] => []
  | e :: rest => if e.id = pid then rest else e :: removeFirstWithId pid rest

/-- PackageManager::addPackageToRegister: build the entry, remove any
existing child with the same ID, then append the new entry. -/
def addPackageToRegister (s : Registry) (info : PackageInfo) (path : Str) :
    Registry :=
  (if (getChildWithId s (packageId info)).isSome
    then removeFirstWithId (packageId info) s
    else s) ++ [mkEntry info path]

/-- Number of registry entries carrying a given identifier. -/
def countWithId (pid : Str) (s : Registry) : Nat :=
  (s.filter (fun e => e.id == pid)).length

theorem countWithId_cons (pid : Str) (e : RegistryEntry) (rest : Registry) :
    countWithId pid (e :: rest) =
      (if e.id = pid then 1 else 0) + countWithId pid rest := by
  by_cases he : e.id = pid <;>
    simp [countWithId, List.filter_cons, he, Nat.add_comm]

theorem removeFirstWithId_of_absent {pid : Str} :
    ∀ s : Registry, (∀ e ∈ s, e.id ≠ pid) → removeFirstWithId pid s = s
  | [], _ => rfl
  | e :: rest, h => by
    rw [removeFirstWithId, if_neg (h e (by simp)),
      removeFirstWithId_of_absent rest (fun x hx => h x (by simp [hx]))]

theorem countWithId_remove_eq_zero {pid : Str} :
    ∀ s : Registry, countWithId pid s ≤ 1 →
      countWithId pid (removeFirstWithId pid s) = 0
  | [], _ => rfl
  | e :: rest, h => by
    rw [countWithId_cons] at h
    by_cases he : e.id = pid
    · rw [removeFirstWithId, if_pos he]
      rw [if_pos he] at h
      omega
    · rw [removeFirstWithId, if_neg he, countWithId_cons, if_neg he]
      rw [if_neg he] at h
      have := @countWithId_remove_eq_zero pid rest (by omega)
      omega

theorem filter_removeFirstWithId_nil {pid : Str} (s : Registry)
    (h : countWithId pid s ≤ 1) :
    (removeFirstWithId pid s).filter (fun e => e.id == pid) = [] := by
  have hz := countWithId_remove_eq_zero s h
  unfold countWithId at hz
  exact List.length_eq_zero.mp hz

theorem addPackageToRegister_eq (s : Registry) (info : PackageInfo) (p : Str) :
    addPackageToRegister s info p =
      removeFirstWithId (packageId info) s ++ [mkEntry info p] := by
  unfold addPackageToRegister
  by_cases hs : (getChildWithId s (packageId info)).isSome
  · rw [if_pos hs]
  · rw [if_neg hs]
    have hnone : getChildWithId s (packageId info) = none := by
      cases hfind : getChildWithId s (packageId info) with
      | none => rfl
      | some v => rw [hfind] at hs; exact absurd rfl hs
    have habs : ∀ e ∈ s, e.id ≠ packageId info := by
      intro e he
      have := List.find?_eq_none.mp hnone e he
      simpa using this
    rw [removeFirstWithId_of_absent s habs]

/-- Claim C3: registering a package into a registry that satisfies the
uniqueness invariant (at most one entry with that identifier — which holds
for every registry the manager itself builds) leaves exactly one entry with
that identifier, namely the fresh entry whose Path and URL come from the
most recent registration; registering the same identifier twice in a row
also leaves exactly one entry, carrying the second registration's Path. -/
theorem addPackageToRegister_upsert (s : Registry) (info : PackageInfo)
    (p1 p2 : Str) (h : countWithId (packageId info) s ≤ 1) :
    (addPackageToRegister s info p1).filter
        (fun e => e.id == packageId info) = [mkEntry info p1]
    ∧ (mkEntry info p1).path = p1 ∧ (mkEntry info p1).url = info.url
    ∧ (addPackageToRegister (addPackageToRegister s info p1) info p2).filter
        (fun e => e.id == packageId info) = [mkEntry info p2] := by
  have hmk : ∀ q : Str, ([mkEntry info q].filter
      (fun e => e.id == packageId info)) = [mkEntry info q] := by
    intro q
    simp [mkEntry, List.filter_cons]
  have first : ∀ q : Str, ∀ t : Registry, countWithId (packageId info) t ≤ 1 →
      (addPackageToRegister t info q).filter
        (fun e => e.id == packageId info) = [mkEntry info q] := by
    intro q t ht
    rw [addPackageToRegister_eq, List.filter_append,
      filter_removeFirstWithId_nil t ht, hmk]
    rfl
  have hcount1 : countWithId (packageId info) (addPackageToRegister s info p1) = 1 := by
    unfold countWithId
    rw [first p1 s h]
    rfl
  exact ⟨first p1 s h, rfl, rfl, first p2 _ (by omega)⟩

/-- Witness for C3 at the empty registry and two concrete paths. -/
theorem addPackageToRegister_upsert_witness :
    (addPackageToRegister [] cexInfoA [1]).filter
        (fun e => e.id == packageId cexInfoA) = [mkEntry cexInfoA [1]]
    ∧ (mkEntry cexInfoA [1]).path = [1] ∧ (mkEntry cexInfoA [1]).url = cexInfoA.url
    ∧ (addPackageToRegister (addPackageToRegister [] cexInfoA [1]) cexInfoA [2]).filter
        (fun e => e.id == packageId cexInfoA) = [mkEntry cexInfoA [2]] :=
  addPackageToRegister_upsert [] cexInfoA [1] [2] (by decide)

/-!
Selecting the latest variant during a catalog refresh.

Inside PackageManager::getAvailablePackages, the platform-matching variants
of one package are collected in `results` and sorted descending with the
comparator `result1.timestamp.compare(result2.timestamp) > 0`; the entry at
index 0 is the selected candidate.  juce String::compare is the
lexicographic three-way comparison on code points (a strict prefix compares
smaller), embedded as `lexCmp`.
-/

/-- juce String::compare: lexicographic three-way comparison. -/
def lexCmp : Str → Str → Ordering
  | [], [] => Ordering.eq
  | [], _ :: _ => Ordering.lt
  | _ :: _, [] => Ordering.gt
  | a :: as, b :: bs =>
    if a < b then Ordering.lt else if b < a then Ordering.gt else lexCmp as bs

/-- The sort comparator of getAvailablePackages:
result1.timestamp.compare(result2.timestamp) > 0. -/
def timestampAfter (r1 r2 : PackageInfo) : Bool :=
  decide (lexCmp r1.timestamp r2.timestamp = Ordering.gt)

/-- Insertion step of the (deterministic) descending sort of the candidate
list. -/
def insertDesc (x : PackageInfo) : List PackageInfo → List PackageInfo
  | [] => [x]
  | y :: ys => if timestampAfter x y then x :: y :: ys else y :: insertDesc x ys

/-- The descending-by-timestamp sort applied to the per-package candidate
list (std::sort with the timestamp comparator; any correct sort yields a
maximal-timestamp element at index 0). -/
def sortByTimestampDesc : List PackageInfo → List PackageInfo
  | [] => []
  | x :: xs => insertDesc x (sortByTimestampDesc xs)

/-- results.getReference(0) after the sort: the candidate kept for the
package. -/
def selectLatest (results : List PackageInfo) : Option PackageInfo :=
  (sortByTimestampDesc results).head?

theorem lexCmp_self : ∀ a : Str, lexCmp a a = Ordering.eq
  | [] => rfl
  | x :: xs => by
    show (if x < x then Ordering.lt
      else if x < x then Ordering.gt else lexCmp xs xs) = Ordering.eq
    rw [if_neg (lt_irrefl x), if_neg (lt_irrefl x)]
    exact lexCmp_self xs

theorem lexCmp_swap : ∀ a b : Str, lexCmp b a = (lexCmp a b).swap
  | [], [] => rfl
  | [], _ :: _ => rfl
  | _ :: _, [] => rfl
  | x :: xs, y :: ys => by
    show (if y < x then Ordering.lt
        else if x < y then Ordering.gt else lexCmp ys xs) =
      (if x < y then Ordering.lt
        else if y < x then Ordering.gt else lexCmp xs ys).swap
    by_cases h1 : x < y
    · rw [if_neg (by omega), if_pos h1, if_pos h1]
      rfl
    · by_cases h2 : y < x
      · rw [if_pos h2, if_neg h1, if_pos h2]
        rfl
      · rw [if_neg h2, if_neg h1, if_neg h1, if_neg h2]
        exact lexCmp_swap xs ys

theorem lexCmp_le_trans : ∀ a b c : Str, lexCmp a b ≠ Ordering.gt →
    lexCmp b c ≠ Ordering.gt → lexCmp a c ≠ Ordering.gt
  | [], _, c, _, _ => by
    cases c <;> simp [lexCmp]
  | _ :: _, [], _, hab, _ => absurd rfl hab
  | _ :: _, _ :: _, [], _, hbc => absurd rfl hbc
  | x :: xs, y :: ys, z :: zs, hab, hbc => by
    have hab' : (if x < y then Ordering.lt
        else if y < x then Ordering.gt else lexCmp xs ys) ≠ Ordering.gt := hab
    have hbc' : (if y < z then Ordering.lt
        else if z < y then Ordering.gt else lexCmp ys zs) ≠ Ordering.gt := hbc
    show (if x < z then Ordering.lt
      else if z < x then Ordering.gt else lexCmp xs zs) ≠ Ordering.gt
    by_cases h1 : x < y
    · by_cases h2 : y < z
      · rw [if_pos (by omega)]
        simp
      · by_cases h3 : z < y
        · rw [if_neg h2, if_pos h3] at hbc'
          exact absurd rfl hbc'
        · rw [if_pos (by omega)]
          simp
    · by_cases h2 : y < x
      · rw [if_neg h1, if_pos h2] at hab'
        exact absurd rfl hab'
      · by_cases h3 : y < z
        · rw [if_pos (by omega)]
          simp
        · by_cases h4 : z < y
          · rw [if_neg h3, if_pos h4] at hbc'
            exact absurd rfl hbc'
          · rw [if_neg (by omega), if_neg (by omega)]
            rw [if_neg h1, if_neg h2] at hab'
            rw [if_neg h3, if_neg h4] at hbc'
            exact lexCmp_le_trans xs ys zs hab' hbc'

theorem sortDesc_head_max : ∀ l : List PackageInfo, l ≠ [] →
    ∃ b t, sortByTimestampDesc l = b :: t ∧ b ∈ l
      ∧ ∀ r ∈ l, lexCmp r.timestamp b.timestamp ≠ Ordering.gt
  | [], h => absurd rfl h
  | x :: xs, _ => by
    by_cases hxs : xs = []
    · subst hxs
      refine ⟨x, [], rfl, by simp, ?_⟩
      intro r hr
      have : r = x := by simpa using hr
      subst this
      rw [lexCmp_self]
      simp
    · obtain ⟨b, t, hsort, hmem, hmax⟩ := sortDesc_head_max xs hxs
      have hstep : sortByTimestampDesc (x :: xs) = insertDesc x (b :: t) := by
        rw [sortByTimestampDesc, hsort]
      by_cases hgt : timestampAfter x b
      · refine ⟨x, b :: t, ?_, by simp, ?_⟩
        · rw [hstep, insertDesc, if_pos hgt]
        · intro r hr
          rcases List.mem_cons.mp hr with hr | hr
          · subst hr
            rw [lexCmp_self]
            simp
          · have h1 := hmax r hr
            have hxb : lexCmp x.timestamp b.timestamp = Ordering.gt := by
              simpa [timestampAfter] using hgt
            have h2 : lexCmp b.timestamp x.timestamp ≠ Ordering.gt := by
              rw [lexCmp_swap, hxb]
              simp [Ordering.swap]
            exact lexCmp_le_trans _ _ _ h1 h2
      · refine ⟨b, insertDesc x t, ?_, List.mem_cons_of_mem _ hmem, ?_⟩
        · rw [hstep, insertDesc, if_neg hgt]
        · intro r hr
          rcases List.mem_cons.mp hr with hr | hr
          · subst hr
            simpa [timestampAfter] using hgt
          · exact hmax r hr

/-- Claim C4: for a nonempty per-package candidate list, the candidate that
getAvailablePackages keeps (index 0 after the descending timestamp sort) is
a member of the list whose timestamp is lexicographically greatest — no
other candidate's timestamp compares greater.  The selection is a function
of the list, so ties are broken deterministically. -/
theorem selectLatest_is_max (results : List PackageInfo) (h : results ≠ []) :
    ∃ best, selectLatest results = some best ∧ best ∈ results
      ∧ ∀ r ∈ results, lexCmp r.timestamp best.timestamp ≠ Ordering.gt := by
  obtain ⟨b, t, hsort, hmem, hmax⟩ := sortDesc_head_max results h
  exact ⟨b, by rw [selectLatest, hsort]; rfl, hmem, hmax⟩

/-- The timestamp "2020:01:01 00:00:00". -/
def ts2020 : Str :=
  [50, 48, 50, 48, 58, 48, 49, 58, 48, 49, 32, 48, 48, 58, 48, 48, 58, 48, 48]

/-- The timestamp "2021:06:15 12:00:00". -/
def ts2021 : Str :=
  [50, 48, 50, 49, 58, 48, 54, 58, 49, 53, 32, 49, 50, 58, 48, 48, 58, 48, 48]

/-- A variant of package "foo" published in 2020. -/
def variant2020 : PackageInfo :=
  { name := [102, 111, 111], author := [], timestamp := ts2020, url := [],
    description := [], version := [49], objects := [] }

/-- A variant of package "foo" published in 2021. -/
def variant2021 : PackageInfo :=
  { name := [102, 111, 111], author := [], timestamp := ts2021, url := [],
    description := [], version := [50], objects := [] }

/-- Witness for C4: among the 2020 and 2021 variants of the spec's example,
the selected candidate exists, is maximal, and is exactly the 2021 one. -/
theorem selectLatest_is_max_witness :
    (∃ best, selectLatest [variant2020, variant2021] = some best
      ∧ best ∈ [variant2020, variant2021]
      ∧ ∀ r ∈ [variant2020, variant2021],
          lexCmp r.timestamp best.timestamp ≠ Ordering.gt)
    ∧ selectLatest [variant2020, variant2021] = some variant2021 :=
  ⟨selectLatest_is_max [variant2020, variant2021] (by decide), by decide⟩

/-!
The download/install task.

PackageManager::DownloadTask::run streams the archive in chunks of 8192
bytes, checking threadShouldExit() before every read and breaking when a
read returns 0 bytes; after every chunk it reports
bytesDownloaded / totalBytes (totalBytes = instream->getTotalLength(),
which is -1 for streams of unknown length).  It then extracts the archive —
storing but never inspecting the result of ZipFile::uncompressTo — calls
manager.addPackageToRegister unconditionally, and finally calls
onFinish(true) unconditionally.

The run is modelled as a function from the stream (the list of per-read
byte counts and the reported total length), the cooperative-cancellation
point, and the extraction outcome, to the trace of externally visible
effects.  A progress report is recorded as the exact operand pair
(bytesDownloaded, totalBytes) of the division.
-/

/-- Externally visible effects of one DownloadTask::run execution. -/
structure RunTrace where
  progressReports : List (Int × Int)
  registryAdd : Option (PackageInfo × Str)
  finishReport : Option Bool
  deriving DecidableEq

/-- One tick of the cancellation countdown: `some k` means threadShouldExit
becomes true at the k-th loop check and stays true. -/
def decCancel : Option Nat → Option Nat
  | none => none
  | some k => some (k - 1)

/-- The download loop of DownloadTask::run: before each read the
cancellation flag is checked (an immediate `true` exit with no further
effects); a read of 0 bytes ends the stream; otherwise the accumulated byte
count and the total length are reported to the progress callback. -/
def dlLoop (totalLen : Int) (cancel : Option Nat) :
    List Nat → Int → List (Int × Int) × Bool
  | [], _ => if cancel = some 0 then ([], true) else ([], false)
  | w :: rest, bytes =>
    if cancel = some 0 then ([], true)
    else if w = 0 then ([], false)
    else
      ((bytes + w, totalLen) ::
          (dlLoop totalLen (decCancel cancel) rest (bytes + w)).1,
        (dlLoop totalLen (decCancel cancel) rest (bytes + w)).2)

/-- The path registered for the extracted package:
filesystem.getChildFile(packageInfo.name).getFullPathName(). -/
def extractedPathOf (libDir : Str) (info : PackageInfo) : Str :=
  libDir ++ 47 :: info.name

/-- DownloadTask::run.  When the loop exits through the cancellation check,
the function returns at once: no extraction, no registry call, no terminal
callback.  Otherwise it extracts (the `extractOk` outcome of
ZipFile::uncompressTo is stored in an unused local and never inspected),
registers the package, and reports onFinish(true). -/
def runTask (chunks : List Nat) (totalLen : Int) (cancel : Option Nat)
    (extractOk : Bool) (info : PackageInfo) (libDir : Str) : RunTrace :=
  let r := dlLoop totalLen cancel chunks 0
  if r.2 then
    { progressReports := r.1, registryAdd := none, finishReport := none }
  else
    { progressReports := r.1,
      registryAdd := some (info, extractedPathOf libDir info),
      finishReport := some true }

/-- A demonstration library directory ("/lib"). -/
def demoLibDir : Str := [47, 108, 105, 98]

/-- Claim C1 (divergence witness): a task whose archive fails to extract
(extractOk = false) still reports onFinish(true) and still registers the
package — the source discards the result of ZipFile::uncompressTo, so the
claimed failure report and the claimed absence of a registry entry both
fail. -/
theorem extraction_failure_still_registers :
    (runTask [100] 100 none false cexInfoA demoLibDir).finishReport = some true
    ∧ (runTask [100] 100 none false cexInfoA demoLibDir).registryAdd
        = some (cexInfoA, extractedPathOf demoLibDir cexInfoA) := by
  exact ⟨rfl, rfl⟩

theorem dlLoop_cancelled : ∀ (k : Nat) (chunks : List Nat) (totalLen bytes : Int),
    k ≤ chunks.length → (∀ w ∈ chunks.take k, w ≠ 0) →
    (dlLoop totalLen (some k) chunks bytes).2 = true
    ∧ (dlLoop totalLen (some k) chunks bytes).1.length = k
  | 0, chunks, totalLen, bytes, _, _ => by
    cases chunks <;> simp [dlLoop]
  | k + 1, [], totalLen, bytes, hlen, _ => by
    simp at hlen
  | k + 1, w :: rest, totalLen, bytes, hlen, hnz => by
    have hw : w ≠ 0 := hnz w (by simp [List.take_succ_cons])
    have ih := dlLoop_cancelled k rest totalLen (bytes + w)
      (by simpa using hlen)
      (fun x hx => hnz x (by simp [List.take_succ_cons, hx]))
    have hstep : dlLoop totalLen (some (k + 1)) (w :: rest) bytes =
        ((bytes + w, totalLen) ::
            (dlLoop totalLen (some k) rest (bytes + w)).1,
          (dlLoop totalLen (some k) rest (bytes + w)).2) := by
      simp [dlLoop, decCancel, hw]
    rw [hstep]
    simpa using ih

/-- Claim C7: a task cancelled mid-download — the cancellation flag becomes
set at loop check k, after k genuine (non-empty, 1 ≤ k) chunk reads and
before the stream ended — never reports completion and never registers a
package; exactly the k progress reports made before cancellation exist and
the task exits at the very next flag check. -/
theorem cancelled_task_no_callbacks (chunks : List Nat) (k : Nat)
    (totalLen : Int) (extractOk : Bool) (info : PackageInfo) (libDir : Str)
    (hk : 1 ≤ k) (hlen : k ≤ chunks.length)
    (hnz : ∀ w ∈ chunks.take k, w ≠ 0) :
    (runTask chunks totalLen (some k) extractOk info libDir).finishReport = none
    ∧ (runTask chunks totalLen (some k) extractOk info libDir).registryAdd = none
    ∧ (runTask chunks totalLen (some k) extractOk info
        libDir).progressReports.length = k := by
  obtain ⟨hc, hl⟩ := dlLoop_cancelled k chunks totalLen 0 hlen hnz
  simp only [runTask, hc]
  exact ⟨rfl, rfl, hl⟩

/-- Witness for C7: a stream of two 8 KiB chunks cancelled after the first
chunk was delivered. -/
theorem cancelled_task_no_callbacks_witness :
    (runTask [8192, 8192] 16384 (some 1) true cexInfoA demoLibDir).finishReport
        = none
    ∧ (runTask [8192, 8192] 16384 (some 1) true cexInfoA demoLibDir).registryAdd
        = none
    ∧ (runTask [8192, 8192] 16384 (some 1) true cexInfoA
        demoLibDir).progressReports.length = 1 :=
  cancelled_task_no_callbacks [8192, 8192] 1 16384 true cexInfoA demoLibDir
    (by decide) (by decide) (by decide)

/-- The claim's "progress value lies in [0, 1]": the division
bytesDownloaded / totalBytes is defined (totalBytes is not 0) and its exact
rational value lies in the closed unit interval.  Exactness is faithful
here: 0 and 1 are representable floats and rounding is monotone, so the
floating-point result lies in [0, 1] exactly when the rational value
does. -/
def progressInUnit (bytes total : Int) : Prop :=
  total ≠ 0 ∧ 0 ≤ (bytes : ℚ) / (total : ℚ) ∧ (bytes : ℚ) / (total : ℚ) ≤ 1

/-- Claim C8 (divergence witness): a stream of unknown length reports
getTotalLength() = -1, and the single 8192-byte chunk of this download
makes the task report the progress value 8192 / (-1) = -8192, far outside
[0, 1]. -/
theorem unknown_length_progress_out_of_range :
    (runTask [8192] (-1) none true cexInfoA demoLibDir).progressReports
      = [(8192, -1)]
    ∧ ¬ progressInUnit 8192 (-1)
    ∧ ((8192 : Int) : ℚ) / ((-1 : Int) : ℚ) < 0 := by
  refine ⟨rfl, ?_, by norm_num⟩
  rintro ⟨-, habs, -⟩
  norm_num at habs

/-!
The orchestrator's active-task collection.

PackageManager::install normalizes the URL scheme to https, derives the
destination file from the final path segment of the URL, and appends a new
DownloadTask to `downloads` unconditionally — there is no lookup before the
add.  PackageManager::getDownloadForPackage is the identifier lookup
offered to callers.
-/

/-- The string "http://". -/
def httpScheme : Str := [104, 116, 116, 112, 58, 47, 47]

/-- The string "https://". -/
def httpsScheme : Str := [104, 116, 116, 112, 115, 58, 47, 47]

/-- The state of one DownloadTask held in PackageManager::downloads. -/
structure DownloadTaskRec where
  packageInfo : PackageInfo
  destination : Str
  deriving DecidableEq

/-- PackageManager's mutable state relevant to install: the OwnedArray of
active downloads. -/
structure ManagerState where
  downloads : List DownloadTaskRec
  deriving DecidableEq

/-- PackageManager::install: force https, compute the destination filename
from the last path segment of the URL, and append a new DownloadTask. -/
def install (libDir : Str) (s : ManagerState) (info0 : PackageInfo) :
    ManagerState :=
  let info := { info0 with
    url := replaceFirstOccurrenceOf info0.url httpScheme httpsScheme }
  let filename := fromLastOccurrenceOf info.url [47]
  { downloads := s.downloads ++
      [{ packageInfo := info, destination := libDir ++ 47 :: filename }] }

/-- PackageManager::getDownloadForPackage: the first active task whose
metadata compares equal (by derived identifier) to the given metadata. -/
def getDownloadForPackage (s : ManagerState) (info : PackageInfo) :
    Option DownloadTaskRec :=
  s.downloads.find? (fun d => packageInfoEq d.packageInfo info)

/-- Number of active tasks whose metadata carries a given identifier. -/
def countTasksWithId (pid : Str) (s : ManagerState) : Nat :=
  (s.downloads.filter (fun d => packageId d.packageInfo == pid)).length

/-- Counterexample for claim C9: two install() calls for the same metadata
give two simultaneously active tasks with equal identifiers — install never
consults the task collection before appending. -/
theorem install_twice_two_active_tasks :
    countTasksWithId (packageId cexInfoA)
      (install demoLibDir (install demoLibDir ⟨[]⟩ cexInfoA) cexInfoA) = 2
    ∧ ¬ (countTasksWithId (packageId cexInfoA)
      (install demoLibDir (install demoLibDir ⟨[]⟩ cexInfoA) cexInfoA) ≤ 1) := by
  constructor
  · rfl
  · decide

/-- Claim C9 (amended): install() appends one task unconditionally, so two
install() calls with the same metadata leave two active tasks carrying that
identifier; at-most-one-task-per-identifier holds only if callers check
getDownloadForPackage before calling install. -/
theorem install_appends_unconditionally (libDir : Str) (s : ManagerState)
    (info : PackageInfo) :
    (install libDir s info).downloads.length = s.downloads.length + 1
    ∧ countTasksWithId (packageId info) (install libDir s info)
        = countTasksWithId (packageId info) s + 1
    ∧ countTasksWithId (packageId info)
        (install libDir (install libDir s info) info)
        = countTasksWithId (packageId info) s + 2 := by
  have hstep : ∀ t : ManagerState, countTasksWithId (packageId info)
      (install libDir t info) = countTasksWithId (packageId info) t + 1 := by
    intro t
    unfold install countTasksWithId
    rw [List.filter_append, List.length_append]
    congr 1
    simp [packageId, joinedKey]
  refine ⟨?_, hstep s, ?_⟩
  · unfold install
    simp
  · rw [hstep (install libDir s info), hstep s]

/-!
The catalog client: getObjectInfo and getAvailablePackages.

Both functions read a WebInputStream, return an empty result on a transport
error or an empty body, and parse the body with nlohmann json::parse inside
a try block whose single catch clause handles json::parse_error only.  The
json values are navigated with nlohmann operators; the exceptions those
operators throw on well-formed json of an unexpected shape (type_error from
value conversions, out_of_range from .at) are NOT parse errors and
therefore propagate out of the function, modelled as `Except.error`.
Out-of-contract accesses (nlohmann assertions) are modelled as access
errors as well.  The json parser itself is a parameter `parse`; the
cooperative-exit flag threadShouldExit is modelled as a constant boolean
for the duration of one call.
-/

/-- A parsed JSON value. -/
inductive Json where
  | null : Json
  | bool : Bool → Json
  | num : Int → Json
  | str : Str → Json
  | arr : List Json → Json
  | obj : List (Str × Json) → Json

/-- json::is_null. -/
def Json.isNull : Json → Bool
  | .null => true
  | _ => false

/-- An exception escaping the catalog client (nlohmann type_error /
out_of_range / assertion — anything the parse_error catch does not
handle). -/
inductive JErr where
  | accessError : JErr
  deriving DecidableEq

/-- Outcome of one WebInputStream request: connection error, or the body
text. -/
inductive Resp where
  | transportError : Resp
  | body : Str → Resp

/-- Insertion step for ordering object members by key (nlohmann stores
members in a std::map, so iteration is in key order). -/
def insertField (p : Str × Json) : List (Str × Json) → List (Str × Json)
  | [] => [p]
  | q :: qs =>
    if lexCmp p.1 q.1 = Ordering.lt then p :: q :: qs else q :: insertField p qs

/-- Object members sorted by key. -/
def sortFieldsByKey : List (Str × Json) → List (Str × Json)
  | [] => []
  | p :: ps => insertField p (sortFieldsByKey ps)

/-- nlohmann operator[] with a key, non-const: null and missing keys give
null; a present member of an object is returned; any other receiver
violates the operator's contract. -/
def getMember (j : Json) (k : Str) : Except JErr Json :=
  match j with
  | .null => .ok .null
  | .obj fields =>
    .ok (((fields.find? (fun p => p.1 == k)).map Prod.snd).getD .null)
  | _ => .error .accessError

/-- Dereferencing json begin(): first element of a nonempty array, value of
the least key of a nonempty object, the value itself for non-null
primitives (their range has one element); dereferencing the end iterator of
null or an empty container is out of contract. -/
def jbegin (j : Json) : Except JErr Json :=
  match j with
  | .null => .error .accessError
  | .arr [] => .error .accessError
  | .arr (x :: _) => .ok x
  | .obj [] => .error .accessError
  | .obj (f :: fs) =>
    match sortFieldsByKey (f :: fs) with
    | [] => .error .accessError
    | g :: _ => .ok g.2
  | other => .ok other

/-- json .at(0): first element of a nonempty array; json::out_of_range on an
empty array, json::type_error on non-arrays — both uncaught here. -/
def jatZero (j : Json) : Except JErr Json :=
  match j with
  | .arr (x :: _) => .ok x
  | _ => .error .accessError

/-- Conversion of a json value to a string (juce String): a JSON string
converts, anything else raises json::type_error. -/
def asString (j : Json) : Except JErr Str :=
  match j with
  | .str s => .ok s
  | _ => .error .accessError

/-- Range-for over a json value: the elements of an array, the member
values of an object in key order, nothing for null, the value itself for
other primitives. -/
def jelems (j : Json) : List Json :=
  match j with
  | .null => []
  | .arr xs => xs
  | .obj fs => (sortFieldsByKey fs).map Prod.snd
  | other => [other]

/-- The string "result". -/
def strResult : Str := [114, 101, 115, 117, 108, 116]

/-- The string "libraries". -/
def strLibraries : Str := [108, 105, 98, 114, 97, 114, 105, 101, 115]

/-- The string "objects". -/
def strObjects : Str := [111, 98, 106, 101, 99, 116, 115]

/-- The string "name". -/
def strName : Str := [110, 97, 109, 101]

/-- The string "archs". -/
def strArchs : Str := [97, 114, 99, 104, 115]

/-- The string "author". -/
def strAuthor : Str := [97, 117, 116, 104, 111, 114]

/-- The string "timestamp". -/
def strTimestamp : Str := [116, 105, 109, 101, 115, 116, 97, 109, 112]

/-- The string "description". -/
def strDescription : Str := [100, 101, 115, 99, 114, 105, 112, 116, 105, 111, 110]

/-- The string "url". -/
def strUrl : Str := [117, 114, 108]

/-- The string "version". -/
def strVersion : Str := [118, 101, 114, 115, 105, 111, 110]

/-- PackageManager::getObjectInfo.  Transport errors, empty bodies and
json::parse_error all yield the empty result; exceptions raised while
navigating `result.libraries.<first>.<first>.at(0).objects[i].name` on
well-formed json of an unexpected shape propagate. -/
def getObjectInfo (parse : Str → Except Unit Json) (r : Resp) :
    Except JErr (List Str) :=
  match r with
  | .transportError => .ok []
  | .body s =>
    if s = [] then .ok []
    else
      match parse s with
      | .error _ => .ok []
      | .ok pj => do
        let a ← getMember pj strResult
        let b ← getMember a strLibraries
        let c ← jbegin b
        let d ← jbegin c
        let e ← jatZero d
        let objs ← getMember e strObjects
        (jelems objs).foldlM
          (fun acc o => do
            let n ← getMember o strName
            let v ← asString n
            pure (acc ++ [v])) []

/-- Reading one metadata property of an `arch` record and converting it to
a string. -/
def readStringField (arch : Json) (k : Str) : Except JErr Str := do
  let v ← getMember arch k
  asString v

/-- Array::addIfNotAlreadyThere with PackageInfo's operator== (compare by
derived identifier): skip the candidate when an equal entry is present. -/
def addIfNotAlreadyThere (packages : List PackageInfo) (info : PackageInfo) :
    List PackageInfo :=
  if packages.any (fun p => packageInfoEq p info) then packages
  else packages ++ [info]

/-- The innermost loop body of getAvailablePackages: read `archs[0]` (the
platform tag, "" when null), keep the variant when checkArchitecture
accepts the tag, fetching its object list with getObjectInfo (one extra
request answered by `infoResp`). -/
def processArch (parse : Str → Except Unit Json) (os fs : Str)
    (machine : List Str) (infoResp : Str → Resp)
    (results : List PackageInfo) (arch : Json) :
    Except JErr (List PackageInfo) := do
  let archs ← getMember arch strArchs
  let a0 ←
    match archs with
    | .arr [] => pure Json.null
    | .arr (x :: _) => pure x
    | .null => pure Json.null
    | _ => Except.error JErr.accessError
  let platform ← if a0.isNull then pure ([] : Str) else asString a0
  if checkArchitecture os fs machine platform then do
    let name ← readStringField arch strName
    let author ← readStringField arch strAuthor
    let timestamp ← readStringField arch strTimestamp
    let description ← readStringField arch strDescription
    let url ← readStringField arch strUrl
    let version ← readStringField arch strVersion
    let objects ← getObjectInfo parse (infoResp url)
    pure (results ++
      [⟨name, author, timestamp, url, description, version, objects⟩])
  else pure results

/-- The two nested version/architecture loops of getAvailablePackages,
accumulating the per-package candidate list `results`. -/
def processVersions (parse : Str → Except Unit Json) (os fs : Str)
    (machine : List Str) (infoResp : Str → Resp) (versions : Json) :
    Except JErr (List PackageInfo) :=
  (jelems versions).foldlM
    (fun acc v =>
      (jelems v).foldlM (processArch parse os fs machine infoResp) acc) []

/-- PackageManager::getAvailablePackages.  Transport errors, empty bodies,
a set exit flag and json::parse_error all yield the empty catalog; for each
library of `result.libraries` the matching variants are collected and the
latest-by-timestamp candidate is added unless an entry with an equal
identifier is already present. -/
def getAvailablePackages (parse : Str → Except Unit Json) (os fs : Str)
    (machine : List Str) (teFlag : Bool) (infoResp : Str → Resp) (r : Resp) :
    Except JErr (List PackageInfo) :=
  match r with
  | .transportError => .ok []
  | .body s =>
    if s = [] then .ok []
    else if teFlag then .ok []
    else
      match parse s with
      | .error _ => .ok []
      | .ok pj => do
        let a ← getMember pj strResult
        let object ← getMember a strLibraries
        (jelems object).foldlM
          (fun packages versions =>
            if teFlag then pure []
            else do
              let results ← processVersions parse os fs machine infoResp versions
              match selectLatest results with
              | none => pure packages
              | some info => pure (addIfNotAlreadyThere packages info))
          []

/-- Claim C5 (amended): when the transport fails, the body is empty, or the
body is not well-formed JSON (json::parse_error), both fetches return the
ordinary empty result; this does NOT extend to well-formed JSON of an
unexpected shape, for which navigation exceptions escape (see the
counterexample). -/
theorem fetch_failures_yield_empty (parse : Str → Except Unit Json)
    (os fs : Str) (machine : List Str) (teFlag : Bool) (infoResp : Str → Resp)
    (r : Resp)
    (h : r = Resp.transportError ∨ r = Resp.body []
      ∨ ∃ s, r = Resp.body s ∧ ∃ e, parse s = Except.error e) :
    getObjectInfo parse r = Except.ok []
    ∧ getAvailablePackages parse os fs machine teFlag infoResp r
        = Except.ok [] := by
  rcases h with h | h | ⟨s, hs, e, hp⟩
  · subst h
    exact ⟨rfl, rfl⟩
  · subst h
    exact ⟨rfl, rfl⟩
  · subst hs
    by_cases hse : s = []
    · subst hse
      exact ⟨rfl, rfl⟩
    · constructor
      · rw [getObjectInfo, if_neg hse, hp]
      · rw [getAvailablePackages, if_neg hse]
        cases teFlag
        · rw [if_neg (by simp), hp]
        · rw [if_pos rfl]

/-- Witness for the amended C5: a nonempty body the parser rejects gives
the empty result from both fetches. -/
theorem fetch_failures_yield_empty_witness :
    getObjectInfo (fun _ => Except.error ()) (Resp.body [123]) = Except.ok []
    ∧ getAvailablePackages (fun _ => Except.error ()) strLinux str32
        [strAmd64, strX8664] false (fun _ => Resp.transportError)
        (Resp.body [123]) = Except.ok [] :=
  fetch_failures_yield_empty (fun _ => Except.error ()) strLinux str32
    [strAmd64, strX8664] false (fun _ => Resp.transportError)
    (Resp.body [123])
    (Or.inr (Or.inr ⟨[123], rfl, (), rfl⟩))

/-- The well-formed body {"result":{"libraries":{"x":[[]]}}} — valid JSON
that does not match the expected schema: the first version-group of library
"x" is the empty array, so `.at(0)` raises json::out_of_range. -/
def cexSchemaJson : Json :=
  Json.obj [(strResult, Json.obj [(strLibraries,
    Json.obj [([120], Json.arr [Json.arr []])])])]

/-- Counterexample for claim C5: on the well-formed body
{"result":{"libraries":{"x":[[]]}}} the object-name fetch does not return
an empty (or any) ordinary result — the json::out_of_range raised by
`.at(0)` is not a parse_error, is not caught, and escapes to the caller. -/
theorem objectInfo_schema_mismatch_throws :
    getObjectInfo (fun _ => Except.ok cexSchemaJson) (Resp.body [123])
      = Except.error JErr.accessError
    ∧ getObjectInfo (fun _ => Except.ok cexSchemaJson) (Resp.body [123])
      ≠ Except.ok [] := by
  have hval : getObjectInfo (fun _ => Except.ok cexSchemaJson) (Resp.body [123])
      = Except.error JErr.accessError := rfl
  refine ⟨hval, ?_⟩
  intro hcontra
  rw [hval] at hcontra
  exact Except.noConfusion hcontra
